import Mathlib

unseal Rat.mul Rat.add Rat.sub Rat.inv

/-
Verification of the processing core of WebVideoToolkit: the sample/range
selection engine (src/sampleManager.js), the encode stage
(src/videoEncoder.js), the export pipeline (src/processingPipeline.js),
the preview coordinator (src/videoFrameRenderer.js) and the rotation
inference (src/videoProcessor.js).

Modelling conventions.  JS numbers are modelled as exact values: integer
quantities as Int/Nat and fractional arithmetic as Rat (all concrete
quantities involved are far below 2^53 and the fractional constants 0.2 and
1/65536 are exactly representable, so exact rational arithmetic agrees with
the source on every input considered here).  JS while loops are modelled as
structurally recursive functions carrying a fuel argument; every wrapper
passes fuel strictly larger than the maximal number of loop iterations, so
the Lean function computes exactly what the JS loop computes.  JS division
Math.floor(x / y) for positive y is Int.ediv, which is the / of Int in
Lean.  Thrown JS exceptions are modelled with Except.
-/

/-- One demuxed compressed sample, as stored by SampleManager
(src/sampleManager.js).  cts is the composition time in track-timescale
units, is_sync is the sync-point (keyframe) flag, data is an opaque payload
identifier standing for the compressed bytes. -/
structure Sample where
  cts : ℤ
  timescale : ℕ
  is_sync : Bool
  duration : ℤ
  data : ℕ
deriving DecidableEq

/-- Placeholder sample used for the List.getD defaults; every indexed access
below is made under an in-bounds hypothesis, mirroring the in-bounds
executions of the JS code. -/
def dSample : Sample := ⟨0, 1, false, 0, 0⟩

/-- SampleManager.sampleTimeMs: (sample.cts * 1000) / sample.timescale. -/
def sampleTimeMs (s : Sample) : ℚ :=
  (s.cts : ℚ) * 1000 / (s.timescale : ℚ)

/-- The loop of SampleManager.lowerBound: binary search with left/right
cursors; mid = Math.floor((left + right) / 2); the branch on
sampleTimeMs < targetTime moves left to mid+1, otherwise right to mid-1;
the loop runs while left <= right and the function returns left.  The fuel
argument bounds the number of iterations; the wrapper passes enough fuel
that the zero-fuel branch is never reached. -/
def lowerBoundGo (samples : List Sample) (t : ℚ) : ℕ → ℤ → ℤ → ℤ
  | 0, left, _ => left
  | fuel + 1, left, right =>
    if left ≤ right then
      if sampleTimeMs (samples.getD ((left + right) / 2).toNat dSample) < t then
        lowerBoundGo samples t fuel ((left + right) / 2 + 1) right
      else
        lowerBoundGo samples t fuel left ((left + right) / 2 - 1)
    else left

/-- SampleManager.lowerBound(targetTime): left = 0, right = length - 1. -/
def lowerBound (samples : List Sample) (t : ℚ) : ℤ :=
  lowerBoundGo samples t (samples.length + 1) 0 ((samples.length : ℤ) - 1)

/-- The loop of SampleManager.upperBound: same shape as lowerBound but the
branch tests sampleTimeMs <= targetTime and the function returns right. -/
def upperBoundGo (samples : List Sample) (t : ℚ) : ℕ → ℤ → ℤ → ℤ
  | 0, _, right => right
  | fuel + 1, left, right =>
    if left ≤ right then
      if sampleTimeMs (samples.getD ((left + right) / 2).toNat dSample) ≤ t then
        upperBoundGo samples t fuel ((left + right) / 2 + 1) right
      else
        upperBoundGo samples t fuel left ((left + right) / 2 - 1)
    else right

/-- SampleManager.upperBound(targetTime): left = 0, right = length - 1. -/
def upperBound (samples : List Sample) (t : ℚ) : ℤ :=
  upperBoundGo samples t (samples.length + 1) 0 ((samples.length : ℤ) - 1)

/-- The start-rewind loop shared by finalizeTimeRange, finalizeSampleInIndex
and findSamplesAtPercentage:
while (index > 0 && !samples[index].is_sync) index--. -/
def rewindToSync (samples : List Sample) : ℕ → ℕ
  | 0 => 0
  | i + 1 => if (samples.getD (i + 1) dSample).is_sync then i + 1 else rewindToSync samples i

/-- The end-advance loop of finalizeTimeRange, reparametrised by
j = endIndex + 1 (the exclusive end).  The JS loop
while (endIndex < length - 1 && !samples[endIndex + 1].is_sync) endIndex++
followed by the final endIndex++ is, in terms of j: while
(j < length && !samples[j].is_sync) j++, returning j.  Fuel as above. -/
def advanceEndGo (samples : List Sample) : ℕ → ℕ → ℕ
  | 0, j => j
  | fuel + 1, j =>
    if j < samples.length ∧ (samples.getD j dSample).is_sync = false then
      advanceEndGo samples fuel (j + 1)
    else j

/-- The start index computed by SampleManager.finalizeTimeRange: 0 when
timeRangeStart is undefined, otherwise lowerBound rewound to the previous
sync point. -/
def startIndexOf (samples : List Sample) : Option ℚ → ℕ
  | none => 0
  | some t => rewindToSync samples (lowerBound samples t).toNat

/-- The exclusive end index computed by SampleManager.finalizeTimeRange:
length when timeRangeEnd is undefined, otherwise upperBound advanced past
the current GOP (see advanceEndGo). -/
def endIndexOf (samples : List Sample) : Option ℚ → ℕ
  | none => samples.length
  | some t => advanceEndGo samples (samples.length + 1) (upperBound samples t + 1).toNat

/-- The active sub-range produced by SampleManager.finalizeTimeRange:
this.samples = this.samples.slice(startIndex, endIndex). -/
def finalizeTimeRange (samples : List Sample) (tStart tEnd : Option ℚ) : List Sample :=
  (samples.take (endIndexOf samples tEnd)).drop (startIndexOf samples tStart)

/-- Sample times listed in non-decreasing order: the well-formedness
assumption under which a binary search over per-sample times is meaningful. -/
def timesSorted (samples : List Sample) : Prop :=
  samples.Pairwise (fun a b => sampleTimeMs a ≤ sampleTimeMs b)

instance (samples : List Sample) : Decidable (timesSorted samples) := by
  unfold timesSorted
  infer_instance

/-- SampleManager.encodedVideoChunkFromSample: the init dictionary passed to
the EncodedVideoChunk constructor.  type is "key" for sync samples and
"delta" otherwise; timestamp and duration are converted to microseconds. -/
structure EncodedVideoChunk where
  type : String
  timestamp : ℚ
  duration : ℚ
  data : ℕ
deriving DecidableEq

/-- SampleManager.encodedVideoChunkFromSample. -/
def encodedVideoChunkFromSample (s : Sample) : EncodedVideoChunk :=
  { type := if s.is_sync then "key" else "delta"
    timestamp := 1000000 * (s.cts : ℚ) / (s.timescale : ℚ)
    duration := 1000000 * (s.duration : ℚ) / (s.timescale : ℚ)
    data := s.data }

/-- The mutable state read and written by SampleManager.requestChunks: the
active sample range and the read cursor. -/
structure CursorState where
  samples : List Sample
  currentIndex : ℕ
deriving DecidableEq

/-- The loop of SampleManager.requestChunks:
while (processed < count && currentIndex < samples.length) deliver a chunk
and advance.  Parametrised by the remaining budget count - processed (so the
recursion is structural); returns the delivered chunks in cursor order and
the final cursor. -/
def requestChunksGo (samples : List Sample) : ℕ → ℕ → List EncodedVideoChunk × ℕ
  | idx, 0 => ([], idx)
  | idx, rem + 1 =>
    if idx < samples.length then
      (encodedVideoChunkFromSample (samples.getD idx dSample) ::
        (requestChunksGo samples (idx + 1) rem).1,
       (requestChunksGo samples (idx + 1) rem).2)
    else ([], idx)

/-- SampleManager.requestChunks(count, onChunk, onExhausted): the delivered
chunks (the onChunk calls, in order), whether onExhausted fired
(currentIndex >= samples.length after the loop), and the new state. -/
def requestChunks (st : CursorState) (count : ℕ) :
    List EncodedVideoChunk × Bool × CursorState :=
  ((requestChunksGo st.samples st.currentIndex count).1,
   decide (st.samples.length ≤ (requestChunksGo st.samples st.currentIndex count).2),
   ⟨st.samples, (requestChunksGo st.samples st.currentIndex count).2⟩)

/-- The drain protocol of the dispatch loop (ProcessingPipeline.dispatch):
requestChunks is called repeatedly with the listed counts and the caller
stops at the first onExhausted signal (the pipeline state leaves
"processing" at that point).  Returns all delivered chunks and the number
of onExhausted invocations. -/
def runRequests (st : CursorState) : List ℕ → List EncodedVideoChunk × ℕ
  | [] => ([], 0)
  | n :: rest =>
    if (requestChunks st n).2.1 then ((requestChunks st n).1, 1)
    else ((requestChunks st n).1 ++ (runRequests (requestChunks st n).2.2 rest).1,
      (runRequests (requestChunks st n).2.2 rest).2)

/-- The SampleManager lifecycle state touched by finalize / waitForReady
(src/sampleManager.js, constructor and lines 37-49).  hasResolver models
resolveReadyPromise being non-null, readyResolved models the readyPromise
having been resolved. -/
structure SMState where
  samples : List Sample
  originalSamples : Option (List Sample)
  currentIndex : ℕ
  finalized : Bool
  state : String
  hasResolver : Bool
  readyResolved : Bool
deriving DecidableEq

/-- The SampleManager constructor: state "receiving", a fresh readyPromise
with its resolver stored in resolveReadyPromise. -/
def initSM : SMState :=
  ⟨[], none, 0, false, "receiving", true, false⟩

/-- SampleManager.finalize.  The source runs, in order:
originalSamples = samples; resolveReadyPromise(); resolveReadyPromise =
null; state = "finalized".  When resolveReadyPromise is already null (a
second call) the call of null throws a TypeError; the one field assigned
before the throw, originalSamples, is re-assigned the unchanged samples
array, so the Except.error branch loses no state change. -/
def finalizeSM (st : SMState) : Except String SMState :=
  if st.hasResolver then
    Except.ok { st with
      originalSamples := some st.samples
      readyResolved := true
      hasResolver := false
      state := "finalized" }
  else
    Except.error "TypeError: this.resolveReadyPromise is not a function"

/-- SampleManager.waitForReady returns immediately when the state is
"finalized" and otherwise suspends until the readyPromise has been
resolved: this predicate says the await completes. -/
def waitForReadyCompletes (st : SMState) : Bool :=
  st.state == "finalized" || st.readyResolved

/-- kEncodeQueueSize from src/logging.js: the encode high-water-mark. -/
def kEncodeQueueSize : ℕ := 23

/-- The bitsPerPixel constant of VideoEncoder.init; the JS literal 0.2 is
the exact rational 1/5 for the purposes of the products computed here (see
the header note on number modelling). -/
def bitsPerPixel : ℚ := 1 / 5

/-- The targetBitrate computation of VideoEncoder.init (src/videoEncoder.js
lines 64-69): Math.min(Math.floor(pixelCount * bitsPerPixel * 30),
30_000_000).  The factor in the source is the literal 30, not the fps
argument.  targetWidth/targetHeight equal the init arguments because the
downscaling branch is disabled by a literal false in its condition. -/
def targetBitrate (targetWidth targetHeight : ℕ) : ℤ :=
  min ⌊((targetWidth * targetHeight : ℕ) : ℚ) * bitsPerPixel * 30⌋ 30000000

/-- The codec configuration dictionary assembled at the end of
VideoEncoder.init (lines 146-155). -/
structure EncoderConfig where
  codec : String
  width : ℕ
  height : ℕ
  framerate : ℚ
  bitrate : Option ℤ
deriving DecidableEq

/-- VideoEncoder.init(width, height, fps, useCalculatedBitrate): the
resulting encoder configuration; bitrate is present only when
useCalculatedBitrate is set. -/
def encoderInitConfig (width height : ℕ) (fps : ℚ) (useCalculatedBitrate : Bool) :
    EncoderConfig :=
  { codec := "avc1.640033"
    width := width
    height := height
    framerate := fps
    bitrate := if useCalculatedBitrate then some (targetBitrate width height) else none }

/-- Modelled from the spec wording of C7 for comparison: bitrate =
pixelCount x 0.2 bits x fps, capped at 30 Mbps. -/
def specTargetBitrate (width height : ℕ) (fps : ℚ) : ℤ :=
  min ⌊((width * height : ℕ) : ℚ) * (1 / 5) * fps⌋ 30000000

/-- JS Math.round: round half up. -/
def jsRound (x : ℚ) : ℤ := ⌊x + 1 / 2⌋

/-- VideoEncoder.encode: keyframeInterval = Math.round(this.fps). -/
def keyframeInterval (fps : ℚ) : ℤ := jsRound fps

/-- VideoEncoder.encode: forceKeyframe = (frameCount - 1) % keyframeInterval
=== 0, where frameCount is the 1-based index of the encode call.  When the
interval is 0 the JS expression is NaN === 0, which is false; for
frameCount >= 1 the JS remainder of the non-negative dividend agrees with
Int.emod. -/
def forceKeyframe (fps : ℚ) (frameCount : ℕ) : Bool :=
  if keyframeInterval fps = 0 then false
  else decide (((frameCount : ℤ) - 1) % keyframeInterval fps = 0)

/-- Modelled from the spec wording of C8 for comparison: the frame is hinted
exactly when N mod keyframeInterval == 1. -/
def specForceKeyframe (fps : ℚ) (frameCount : ℕ) : Bool :=
  decide ((frameCount : ℤ) % keyframeInterval fps = 1)

/-- VideoProcessor.setInitialRotation (src/videoProcessor.js lines 472-487):
the matrix entries are multiplied by scale = 1/65536 and the rotation is
chosen from the destructured (a, b, c, d) = (m[0], m[1], m[3], m[4])
sub-block; note the source assigns -90 (not 270) in the second case. -/
def setInitialRotation (matrix : List ℤ) : ℤ :=
  if ((matrix.getD 0 0 : ℚ) * (1 / 65536) = 0 ∧ (matrix.getD 1 0 : ℚ) * (1 / 65536) = 1 ∧
      (matrix.getD 3 0 : ℚ) * (1 / 65536) = -1 ∧ (matrix.getD 4 0 : ℚ) * (1 / 65536) = 0) then
    90
  else if ((matrix.getD 0 0 : ℚ) * (1 / 65536) = 0 ∧ (matrix.getD 1 0 : ℚ) * (1 / 65536) = -1 ∧
      (matrix.getD 3 0 : ℚ) * (1 / 65536) = 1 ∧ (matrix.getD 4 0 : ℚ) * (1 / 65536) = 0) then
    -90
  else if ((matrix.getD 0 0 : ℚ) * (1 / 65536) = -1 ∧ (matrix.getD 4 0 : ℚ) * (1 / 65536) = -1) then
    180
  else 0

/-- A decoded VideoFrame as seen by the export pipeline: presentation
timestamp and duration in microseconds. -/
structure DecodedFrame where
  timestamp : ℤ
  duration : ℤ
deriving DecidableEq

/-- ProcessingPipeline.processFrame: frameTimeMs = Math.floor(timestamp /
1000); Int division in Lean is floor division for the positive divisor. -/
def frameTimeMs (f : DecodedFrame) : ℤ := f.timestamp / 1000

/-- The selected time range held by the pipeline (timeRangeStart,
timeRangeEnd, in milliseconds). -/
structure PipelineRange where
  timeRangeStart : ℤ
  timeRangeEnd : ℤ
deriving DecidableEq

/-- ProcessingPipeline.processFrame: a frame outside
[timeRangeStart, timeRangeEnd] is closed and not encoded; otherwise a new
frame carrying the original timestamp and duration is created from the
canvas and passed to encoder.encode. -/
def processFrameResult (r : PipelineRange) (f : DecodedFrame) : Option DecodedFrame :=
  if frameTimeMs f < r.timeRangeStart ∨ frameTimeMs f > r.timeRangeEnd then none
  else some { timestamp := f.timestamp, duration := f.duration }

/-- ProcessingPipeline.handleDecoderOutput chains every delivered frame onto
previousPromise (previousPromise = previousPromise.then(() =>
processFrame(frame))), so the processFrame bodies run to completion one
after another in delivery order; the sequence of encoder.encode calls is
therefore the delivery-ordered sequence of in-range frames. -/
def encodeSequence (r : PipelineRange) (arrivals : List DecodedFrame) : List DecodedFrame :=
  arrivals.filterMap (processFrameResult r)

/-- SampleManager.findSamplesAtPercentage: index =
Math.floor((percentage / 100) * (samples.length - 1)), rewound to the
previous sync point, returning the closed sub-sequence up to index.  (The
throw on an already-finalized store is outside the executions modelled
here.) -/
def findSamplesAtPercentage (samples : List Sample) (percentage : ℚ) : List Sample :=
  (samples.take ((⌊percentage / 100 * ((samples.length : ℚ) - 1)⌋).toNat + 1)).drop
    (rewindToSync samples (⌊percentage / 100 * ((samples.length : ℚ) - 1)⌋).toNat)

/-- The PreviewManager state (src/videoFrameRenderer.js): the prepared
sub-sequence and previewFrameTimeStamp, the handle of the current preview
request (0 after construction and after a consumed draw). -/
structure PreviewState where
  previewFrameTimeStamp : ℚ
  samples : List Sample
deriving DecidableEq

/-- PreviewManager constructor: previewFrameTimeStamp = 0. -/
def initPreview : PreviewState := ⟨0, []⟩

/-- PreviewManager.preparePreview(percentage): selects the sub-sequence,
stores it together with the timestamp of its last sample, and returns that
timestamp as the request handle. -/
def preparePreview (store : List Sample) (_st : PreviewState) (percentage : ℚ) :
    PreviewState × ℚ :=
  (⟨sampleTimeMs ((findSamplesAtPercentage store percentage).getD
      ((findSamplesAtPercentage store percentage).length - 1) dSample),
    findSamplesAtPercentage store percentage⟩,
   sampleTimeMs ((findSamplesAtPercentage store percentage).getD
      ((findSamplesAtPercentage store percentage).length - 1) dSample))

/-- PreviewManager.executePreview(handle): null when the handle no longer
matches previewFrameTimeStamp; otherwise the full prepared sub-sequence is
fed to the decoder (returned here as the list of submitted chunks). -/
def executePreview (st : PreviewState) (handle : ℚ) : Option (List EncodedVideoChunk) :=
  if handle ≠ st.previewFrameTimeStamp then none
  else some (st.samples.map encodedVideoChunkFromSample)

/-- PreviewManager.drawPreview(frame, drawFrameCallback): skips the frame
when Math.floor(previewFrameTimeStamp) differs from
Math.floor(frame.timestamp / 1000); otherwise invokes the callback and
resets the handle to 0.  Returns the new state and whether the callback was
invoked. -/
def drawPreview (st : PreviewState) (frameTimestamp : ℚ) : PreviewState × Bool :=
  if ⌊st.previewFrameTimeStamp⌋ ≠ ⌊frameTimestamp / 1000⌋ then (st, false)
  else ({ st with previewFrameTimeStamp := 0 }, true)

/-- The progress of one VideoEncoder.encode call through its backpressure
gate: about to evaluate the while condition (start), suspended on
blockingPromise (waiting), or returned after enqueueing its frame (done). -/
inductive TaskPhase where
  | start : TaskPhase
  | waiting : TaskPhase
  | done : TaskPhase
deriving DecidableEq

/-- Resolving blockingPromise resumes every caller suspended on it; each
resumed caller re-evaluates the while condition (phase start). -/
def wakeTask : TaskPhase → TaskPhase
  | TaskPhase.waiting => TaskPhase.start
  | p => p

/-- The event-loop state of the encode stage: the native
encoder.encodeQueueSize, whether a blockingPromise currently exists, and
the phases of the concurrent encode() callers. -/
structure EncState where
  queue : ℕ
  blocking : Bool
  tasks : List TaskPhase
deriving DecidableEq

/-- The encode stage right after init: empty native queue, no
blockingPromise, no callers yet. -/
def encInit : EncState := ⟨0, false, []⟩

/-- One event-loop step of the encode stage (VideoEncoder.encode lines
183-218 and the ondequeue handler, lines 130-144).  Code between two awaits
runs atomically on the single-threaded event loop, so the while-condition
check followed by encoder.encode is a single step (enqueue); a caller that
sees queue > kEncodeQueueSize either awaits the existing blockingPromise or
creates the one blockingPromise and awaits it; a native dequeue event
decrements the queue and, exactly when a blockingPromise exists and the new
depth is strictly below kEncodeQueueSize, resolves it (waking all
waiters). -/
inductive EncStep : EncState → EncState → Prop where
  | spawn (s : EncState) :
      EncStep s ⟨s.queue, s.blocking, s.tasks ++ [TaskPhase.start]⟩
  | awaitShared (s : EncState) (i : ℕ) (h : s.tasks[i]? = some TaskPhase.start)
      (hq : kEncodeQueueSize < s.queue) (hb : s.blocking = true) :
      EncStep s ⟨s.queue, true, s.tasks.set i TaskPhase.waiting⟩
  | createBlocking (s : EncState) (i : ℕ) (h : s.tasks[i]? = some TaskPhase.start)
      (hq : kEncodeQueueSize < s.queue) (hb : s.blocking = false) :
      EncStep s ⟨s.queue, true, s.tasks.set i TaskPhase.waiting⟩
  | enqueue (s : EncState) (i : ℕ) (h : s.tasks[i]? = some TaskPhase.start)
      (hq : s.queue ≤ kEncodeQueueSize) :
      EncStep s ⟨s.queue + 1, s.blocking, s.tasks.set i TaskPhase.done⟩
  | dequeueResolve (s : EncState) (hq : 0 < s.queue) (hb : s.blocking = true)
      (hlow : s.queue - 1 < kEncodeQueueSize) :
      EncStep s ⟨s.queue - 1, false, s.tasks.map wakeTask⟩
  | dequeueKeepBlocking (s : EncState) (hq : 0 < s.queue)
      (hno : s.blocking = false ∨ kEncodeQueueSize ≤ s.queue - 1) :
      EncStep s ⟨s.queue - 1, s.blocking, s.tasks⟩

/-- The states the encode stage can reach from encInit by event-loop
steps. -/
inductive EncReach : EncState → Prop where
  | init : EncReach encInit
  | step {s s2 : EncState} : EncReach s → EncStep s s2 → EncReach s2

/-- A concrete well-formed sample sequence used to instantiate hypotheses:
a 4-sample track at timescale 1000 with sync points at indices 0 and 3,
sample times 0, 33, 67, 100 ms. -/
def samples4 : List Sample :=
  [⟨0, 1000, true, 33, 1⟩, ⟨33, 1000, false, 33, 2⟩,
   ⟨67, 1000, false, 33, 3⟩, ⟨100, 1000, true, 33, 4⟩]

-- ---------------------------------------------------------------------------
-- Lemmas
-- ---------------------------------------------------------------------------

theorem timesSorted_mono {samples : List Sample} (hs : timesSorted samples)
    {i j : ℕ} (hij : i ≤ j) (hj : j < samples.length) :
    sampleTimeMs (samples.getD i dSample) ≤ sampleTimeMs (samples.getD j dSample) := by
  rcases Nat.lt_or_ge i j with hlt | hge
  · rw [List.getD_eq_getElem samples dSample (lt_trans hlt hj),
      List.getD_eq_getElem samples dSample hj]
    exact List.pairwise_iff_getElem.mp hs i j (lt_trans hlt hj) hj hlt
  · have : i = j := le_antisymm hij hge
    subst this
    exact le_refl _

theorem lowerBoundGo_spec (samples : List Sample) (t : ℚ) (hs : timesSorted samples) :
    ∀ (fuel : ℕ) (left right : ℤ), 0 ≤ left → right < (samples.length : ℤ) →
      left ≤ right + 1 → (right + 1 - left).toNat < fuel →
      (∀ i : ℕ, (i : ℤ) < left → sampleTimeMs (samples.getD i dSample) < t) →
      (∀ i : ℕ, right < (i : ℤ) → i < samples.length →
        t ≤ sampleTimeMs (samples.getD i dSample)) →
      0 ≤ lowerBoundGo samples t fuel left right ∧
      lowerBoundGo samples t fuel left right ≤ (samples.length : ℤ) ∧
      (∀ i : ℕ, (i : ℤ) < lowerBoundGo samples t fuel left right →
        sampleTimeMs (samples.getD i dSample) < t) ∧
      (∀ i : ℕ, lowerBoundGo samples t fuel left right ≤ (i : ℤ) → i < samples.length →
        t ≤ sampleTimeMs (samples.getD i dSample)) := by
  intro fuel
  induction fuel with
  | zero =>
    intro left right _ _ _ hfuel _ _
    omega
  | succ fuel ih =>
    intro left right hl hr hlr hfuel inv1 inv2
    rw [lowerBoundGo]
    by_cases hcase : left ≤ right
    · rw [if_pos hcase]
      have hmid1 : left ≤ (left + right) / 2 := by omega
      have hmid2 : (left + right) / 2 ≤ right := by omega
      have hmidlen : ((left + right) / 2).toNat < samples.length := by omega
      by_cases hcmp : sampleTimeMs (samples.getD ((left + right) / 2).toNat dSample) < t
      · rw [if_pos hcmp]
        refine ih ((left + right) / 2 + 1) right (by omega) hr (by omega) (by omega) ?_ inv2
        intro i hi
        have hile : i ≤ ((left + right) / 2).toNat := by omega
        exact lt_of_le_of_lt (timesSorted_mono hs hile hmidlen) hcmp
      · rw [if_neg hcmp]
        refine ih left ((left + right) / 2 - 1) hl (by omega) (by omega) (by omega) inv1 ?_
        intro i hi hilen
        have hge : ((left + right) / 2).toNat ≤ i := by omega
        exact le_trans (not_lt.mp hcmp) (timesSorted_mono hs hge hilen)
    · rw [if_neg hcase]
      refine ⟨hl, by omega, inv1, ?_⟩
      intro i hi hilen
      exact inv2 i (by omega) hilen

theorem upperBoundGo_spec (samples : List Sample) (t : ℚ) (hs : timesSorted samples) :
    ∀ (fuel : ℕ) (left right : ℤ), 0 ≤ left → right < (samples.length : ℤ) →
      left ≤ right + 1 → (right + 1 - left).toNat < fuel →
      (∀ i : ℕ, (i : ℤ) < left → sampleTimeMs (samples.getD i dSample) ≤ t) →
      (∀ i : ℕ, right < (i : ℤ) → i < samples.length →
        t < sampleTimeMs (samples.getD i dSample)) →
      -1 ≤ upperBoundGo samples t fuel left right ∧
      upperBoundGo samples t fuel left right < (samples.length : ℤ) ∧
      (∀ i : ℕ, (i : ℤ) ≤ upperBoundGo samples t fuel left right →
        sampleTimeMs (samples.getD i dSample) ≤ t) ∧
      (∀ i : ℕ, upperBoundGo samples t fuel left right < (i : ℤ) → i < samples.length →
        t < sampleTimeMs (samples.getD i dSample)) := by
  intro fuel
  induction fuel with
  | zero =>
    intro left right _ _ _ hfuel _ _
    omega
  | succ fuel ih =>
    intro left right hl hr hlr hfuel inv1 inv2
    rw [upperBoundGo]
    by_cases hcase : left ≤ right
    · rw [if_pos hcase]
      have hmid1 : left ≤ (left + right) / 2 := by omega
      have hmid2 : (left + right) / 2 ≤ right := by omega
      have hmidlen : ((left + right) / 2).toNat < samples.length := by omega
      by_cases hcmp : sampleTimeMs (samples.getD ((left + right) / 2).toNat dSample) ≤ t
      · rw [if_pos hcmp]
        refine ih ((left + right) / 2 + 1) right (by omega) hr (by omega) (by omega) ?_ inv2
        intro i hi
        have hile : i ≤ ((left + right) / 2).toNat := by omega
        exact le_trans (timesSorted_mono hs hile hmidlen) hcmp
      · rw [if_neg hcmp]
        refine ih left ((left + right) / 2 - 1) hl (by omega) (by omega) (by omega) inv1 ?_
        intro i hi hilen
        have hge : ((left + right) / 2).toNat ≤ i := by omega
        exact lt_of_lt_of_le (not_le.mp hcmp) (timesSorted_mono hs hge hilen)
    · rw [if_neg hcase]
      refine ⟨by omega, by omega, ?_, inv2⟩
      intro i hi
      exact inv1 i (by omega)

theorem rewindToSync_le (samples : List Sample) (i : ℕ) :
    rewindToSync samples i ≤ i := by
  induction i with
  | zero => exact le_refl 0
  | succ i ih =>
    rw [rewindToSync]
    by_cases h : (samples.getD (i + 1) dSample).is_sync
    · rw [if_pos h]
    · rw [if_neg h]
      omega

theorem rewindToSync_is_sync (samples : List Sample) (i : ℕ)
    (h0 : (samples.getD 0 dSample).is_sync = true) :
    (samples.getD (rewindToSync samples i) dSample).is_sync = true := by
  induction i with
  | zero => exact h0
  | succ i ih =>
    rw [rewindToSync]
    by_cases h : (samples.getD (i + 1) dSample).is_sync
    · rw [if_pos h]
      exact h
    · rw [if_neg h]
      exact ih

theorem advanceEndGo_ge (samples : List Sample) (fuel j : ℕ) :
    j ≤ advanceEndGo samples fuel j := by
  induction fuel generalizing j with
  | zero => exact le_refl j
  | succ fuel ih =>
    rw [advanceEndGo]
    by_cases h : j < samples.length ∧ (samples.getD j dSample).is_sync = false
    · rw [if_pos h]
      exact le_trans (Nat.le_succ j) (ih (j + 1))
    · rw [if_neg h]

theorem advanceEndGo_boundary (samples : List Sample) (fuel j : ℕ)
    (hj : j ≤ samples.length) (hfuel : samples.length - j < fuel) :
    advanceEndGo samples fuel j = samples.length ∨
      (samples.getD (advanceEndGo samples fuel j) dSample).is_sync = true := by
  induction fuel generalizing j with
  | zero => omega
  | succ fuel ih =>
    rw [advanceEndGo]
    by_cases h : j < samples.length ∧ (samples.getD j dSample).is_sync = false
    · rw [if_pos h]
      exact ih (j + 1) (by omega) (by omega)
    · rw [if_neg h]
      rcases Nat.lt_or_ge j samples.length with hlt | hge
      · right
        rcases Bool.eq_false_or_eq_true (samples.getD j dSample).is_sync with ht | hf
        · exact ht
        · exact absurd ⟨hlt, hf⟩ h
      · left
        omega

theorem upperBoundGo_le_right (samples : List Sample) (t : ℚ) (fuel : ℕ) :
    ∀ left right : ℤ, upperBoundGo samples t fuel left right ≤ right := by
  induction fuel with
  | zero =>
    intro left right
    rw [upperBoundGo]
  | succ fuel ih =>
    intro left right
    rw [upperBoundGo]
    by_cases hcase : left ≤ right
    · rw [if_pos hcase]
      by_cases hcmp : sampleTimeMs (samples.getD ((left + right) / 2).toNat dSample) ≤ t
      · rw [if_pos hcmp]
        exact ih _ _
      · rw [if_neg hcmp]
        have h1 := ih left ((left + right) / 2 - 1)
        omega
    · rw [if_neg hcase]

theorem upperBound_lt_length (samples : List Sample) (t : ℚ) :
    upperBound samples t ≤ (samples.length : ℤ) - 1 := by
  exact upperBoundGo_le_right samples t (samples.length + 1) 0 ((samples.length : ℤ) - 1)

theorem endIndexOf_le_length (samples : List Sample) (t : ℚ) :
    endIndexOf samples (some t) ≤ samples.length := by
  rw [endIndexOf]
  have h1 := upperBound_lt_length samples t
  have h2 : (upperBound samples t + 1).toNat ≤ samples.length := by omega
  -- advanceEndGo never moves past length when started at or below it
  have h3 : ∀ fuel j, j ≤ samples.length → advanceEndGo samples fuel j ≤ samples.length := by
    intro fuel
    induction fuel with
    | zero =>
      intro j hj
      rw [advanceEndGo]
      exact hj
    | succ fuel ih =>
      intro j hj
      rw [advanceEndGo]
      by_cases h : j < samples.length ∧ (samples.getD j dSample).is_sync = false
      · rw [if_pos h]
        exact ih (j + 1) (by omega)
      · rw [if_neg h]
        exact hj
  exact h3 _ _ h2

-- ---------------------------------------------------------------------------
-- C4
-- ---------------------------------------------------------------------------

/-- C4: on a finalized sequence whose per-sample times
(compositionTimeUnits * 1000 / timescale) are in non-decreasing order,
selectByTime's start boundary search (SampleManager.lowerBound) returns the
lowest index whose sample time is at least t (every index below it has time
strictly less than t, and it and every index at or above it has time at
least t), and the end boundary search (SampleManager.upperBound) returns
the highest index whose sample time is at most t (every index at or below
it has time at most t, and every index above it has time strictly more
than t). -/
theorem c4_selectByTime_binary_search (samples : List Sample) (t : ℚ)
    (hs : timesSorted samples) :
    (0 ≤ lowerBound samples t ∧ lowerBound samples t ≤ (samples.length : ℤ) ∧
      (∀ i : ℕ, (i : ℤ) < lowerBound samples t →
        sampleTimeMs (samples.getD i dSample) < t) ∧
      (∀ i : ℕ, lowerBound samples t ≤ (i : ℤ) → i < samples.length →
        t ≤ sampleTimeMs (samples.getD i dSample))) ∧
    (-1 ≤ upperBound samples t ∧ upperBound samples t < (samples.length : ℤ) ∧
      (∀ i : ℕ, (i : ℤ) ≤ upperBound samples t →
        sampleTimeMs (samples.getD i dSample) ≤ t) ∧
      (∀ i : ℕ, upperBound samples t < (i : ℤ) → i < samples.length →
        t < sampleTimeMs (samples.getD i dSample))) := by
  constructor
  · exact lowerBoundGo_spec samples t hs (samples.length + 1) 0 ((samples.length : ℤ) - 1)
      (le_refl 0) (by omega) (by omega) (by omega)
      (fun i hi => absurd hi (by omega)) (fun i hi hilen => absurd hilen (by omega))
  · exact upperBoundGo_spec samples t hs (samples.length + 1) 0 ((samples.length : ℤ) - 1)
      (le_refl 0) (by omega) (by omega) (by omega)
      (fun i hi => absurd hi (by omega)) (fun i hi hilen => absurd hilen (by omega))

/-- Witness for C4 at the concrete sorted sequence samples4 and t = 50 ms:
the hypotheses are satisfiable and the boundary indices are well-placed. -/
theorem c4_selectByTime_binary_search_witness :
    0 ≤ lowerBound samples4 50 ∧ lowerBound samples4 50 ≤ (samples4.length : ℤ) ∧
      -1 ≤ upperBound samples4 50 ∧ upperBound samples4 50 < (samples4.length : ℤ) :=
  ⟨(c4_selectByTime_binary_search samples4 50 (by decide)).1.1,
   (c4_selectByTime_binary_search samples4 50 (by decide)).1.2.1,
   (c4_selectByTime_binary_search samples4 50 (by decide)).2.1,
   (c4_selectByTime_binary_search samples4 50 (by decide)).2.2.1⟩

-- ---------------------------------------------------------------------------
-- C1
-- ---------------------------------------------------------------------------

/-- C1: the active range produced by selectByTime (finalizeTimeRange) starts
at a sync-point sample, and, when an explicit end time is supplied, the
exclusive end index is only moved forward from the pre-advance binary-search
position and lands either at the true end of the sequence or directly on a
sync-point boundary, so that no GOP is cut mid-sequence.  Hypotheses: the
sequence starts with a sync point (the well-formedness invariant of a
decodable track: the rewind loop stops at index 0, so a non-sync first
sample is the one case the rewind cannot repair), and when a start time is
supplied its binary-search index is in bounds (otherwise the JS code throws
before producing a range). -/
theorem c1_range_starts_at_sync_point (samples : List Sample) (tStart tEnd : Option ℚ)
    (h0 : (samples.getD 0 dSample).is_sync = true)
    (hstart : ∀ t ∈ tStart, (lowerBound samples t).toNat < samples.length) :
    (∀ s ∈ (finalizeTimeRange samples tStart tEnd).head?, s.is_sync = true) ∧
    (∀ t ∈ tEnd,
      (upperBound samples t + 1).toNat ≤ endIndexOf samples (some t) ∧
      (endIndexOf samples (some t) = samples.length ∨
        (samples.getD (endIndexOf samples (some t)) dSample).is_sync = true)) := by
  constructor
  · intro s hsmem
    rw [Option.mem_def] at hsmem
    rw [finalizeTimeRange, List.head?_eq_getElem?, List.getElem?_drop,
      List.getElem?_take] at hsmem
    rw [Nat.add_zero] at hsmem
    by_cases hin : startIndexOf samples tStart < endIndexOf samples tEnd
    · rw [if_pos hin] at hsmem
      have hidx : startIndexOf samples tStart < samples.length := by
        by_cases hnone : samples[startIndexOf samples tStart]? = none
        · rw [hnone] at hsmem
          exact absurd hsmem (by simp)
        · have := List.getElem?_eq_none_iff.not.mp (by exact hnone)
          omega
      have hval : s = samples[startIndexOf samples tStart] := by
        rw [List.getElem?_eq_getElem hidx] at hsmem
        exact (Option.some_inj.mp hsmem).symm
      have hgetD : s = samples.getD (startIndexOf samples tStart) dSample := by
        rw [hval, List.getD_eq_getElem samples dSample hidx]
      rw [hgetD]
      cases tStart with
      | none =>
        rw [startIndexOf]
        exact h0
      | some t =>
        rw [startIndexOf]
        exact rewindToSync_is_sync samples (lowerBound samples t).toNat h0
    · rw [if_neg hin] at hsmem
      exact absurd hsmem (by simp)
  · intro t htmem
    constructor
    · rw [endIndexOf]
      exact advanceEndGo_ge samples (samples.length + 1) (upperBound samples t + 1).toNat
    · rw [endIndexOf]
      have h1 := upperBound_lt_length samples t
      exact advanceEndGo_boundary samples (samples.length + 1)
        (upperBound samples t + 1).toNat (by omega) (by omega)

/-- Witness for C1 at samples4 with range [40 ms, 80 ms]: the hypotheses are
satisfiable and the resulting range is nonempty with a sync-point head. -/
theorem c1_range_starts_at_sync_point_witness :
    (finalizeTimeRange samples4 (some 40) (some 80)).head? = some ⟨0, 1000, true, 33, 1⟩ ∧
    (⟨0, 1000, true, 33, 1⟩ : Sample).is_sync = true ∧
    (upperBound samples4 80 + 1).toNat ≤ endIndexOf samples4 (some 80) ∧
    (endIndexOf samples4 (some 80) = samples4.length ∨
      (samples4.getD (endIndexOf samples4 (some 80)) dSample).is_sync = true) :=
  ⟨by decide,
   (c1_range_starts_at_sync_point samples4 (some 40) (some 80) (by decide)
      (by intro t ht; rw [Option.mem_def] at ht; cases ht; decide)).1
     ⟨0, 1000, true, 33, 1⟩ (by decide),
   ((c1_range_starts_at_sync_point samples4 (some 40) (some 80) (by decide)
      (by intro t ht; rw [Option.mem_def] at ht; cases ht; decide)).2
     80 rfl).1,
   ((c1_range_starts_at_sync_point samples4 (some 40) (some 80) (by decide)
      (by intro t ht; rw [Option.mem_def] at ht; cases ht; decide)).2
     80 rfl).2⟩


-- ---------------------------------------------------------------------------
-- C7
-- ---------------------------------------------------------------------------

/-- C7 counterexample: at width 100, height 100, fps 60 the code configures
bitrate floor(100*100*0.2*30) = 60000 (the source multiplies by the literal
30, not by fps), while the claim's formula floor(100*100*0.2*60) capped at
30 Mbps gives 120000. -/
theorem c7_counterexample :
    (encoderInitConfig 100 100 60 true).bitrate = some 60000 ∧
    specTargetBitrate 100 100 60 = 120000 ∧ (60000 : ℤ) ≠ 120000 := by
  decide

/-- C7 amended: when the heuristic flag is set the configured bitrate is
floor(width*height*0.2*30) capped at 30,000,000 — the frame-rate factor is
the fixed literal 30, independent of the fps argument — and when the flag
is unset no bitrate is set in the configuration. -/
theorem c7_bitrate_heuristic (width height : ℕ) (fps : ℚ) :
    (encoderInitConfig width height fps true).bitrate =
      some (min (6 * (width * height : ℤ)) 30000000) ∧
    (encoderInitConfig width height fps false).bitrate = none := by
  constructor
  · simp only [encoderInitConfig, targetBitrate, bitsPerPixel, if_pos]
    congr 2
    have harg : ((width * height : ℕ) : ℚ) * (1 / 5) * 30 =
        ((6 * (width * height : ℤ) : ℤ) : ℚ) := by
      push_cast
      ring
    rw [harg, Int.floor_intCast]
  · rfl

-- ---------------------------------------------------------------------------
-- C8
-- ---------------------------------------------------------------------------

/-- C8 counterexample: at fps = 1 (keyframeInterval = 1) the code hints a
forced keyframe on the second frame, since (2-1) % 1 == 0, while the
claim's condition N mod keyframeInterval == 1 reads 2 mod 1 == 1, which is
false. -/
theorem c8_counterexample :
    forceKeyframe 1 2 = true ∧ specForceKeyframe 1 2 = false := by
  decide

/-- C8 amended: the frame is hinted as a forced sync point exactly when
(N - 1) mod keyframeInterval == 0 with keyframeInterval = round(fps) — that
is, when N is congruent to 1 modulo the interval — which coincides with the
claim's condition N mod keyframeInterval == 1 whenever the interval is at
least 2. -/
theorem c8_forced_keyframe_cadence (fps : ℚ) (frameCount : ℕ)
    (hk : 1 ≤ keyframeInterval fps) :
    (forceKeyframe fps frameCount = true ↔
      ((frameCount : ℤ) - 1) % keyframeInterval fps = 0) ∧
    (2 ≤ keyframeInterval fps →
      forceKeyframe fps frameCount = specForceKeyframe fps frameCount) := by
  have hk0 : ¬ keyframeInterval fps = 0 := by omega
  constructor
  · rw [forceKeyframe, if_neg hk0]
    exact decide_eq_true_iff
  · intro h2
    rw [forceKeyframe, if_neg hk0, specForceKeyframe]
    rw [decide_eq_decide]
    constructor
    · intro h
      obtain ⟨q, hq⟩ := Int.dvd_of_emod_eq_zero h
      have hn : (frameCount : ℤ) = 1 + keyframeInterval fps * q := by linarith
      rw [hn, Int.add_mul_emod_self_left]
      exact Int.emod_eq_of_lt (by omega) (by omega)
    · intro h
      have hdiv := Int.emod_add_ediv (frameCount : ℤ) (keyframeInterval fps)
      have hn : (frameCount : ℤ) - 1 =
          keyframeInterval fps * ((frameCount : ℤ) / keyframeInterval fps) := by
        linarith
      rw [hn]
      exact Int.mul_emod_right _ _

/-- Witness for C8 amended at fps = 30, frame 31: the interval hypothesis
holds and both characterisations apply. -/
theorem c8_forced_keyframe_cadence_witness :
    (forceKeyframe 30 31 = true ↔ ((31 : ℤ) - 1) % keyframeInterval 30 = 0) ∧
    forceKeyframe 30 31 = specForceKeyframe 30 31 :=
  ⟨(c8_forced_keyframe_cadence 30 31 (by decide)).1,
   (c8_forced_keyframe_cadence 30 31 (by decide)).2 (by decide)⟩

-- ---------------------------------------------------------------------------
-- C9
-- ---------------------------------------------------------------------------

/-- C9 counterexample: the matrix the claim sends to 270 degrees is mapped
by the code to -90 degrees (an equal rotation modulo 360, but not the
literal value 270 the claim states). -/
theorem c9_counterexample :
    setInitialRotation [0, -65536, 0, 65536, 0, 0, 0, 0, 65536] = -90 ∧
    (-90 : ℤ) ≠ 270 := by
  decide

-- ---------------------------------------------------------------------------
-- C10
-- ---------------------------------------------------------------------------

/-- C10 counterexample: finalizing a freshly constructed SampleManager twice
does not leave the store unchanged and succeed — the second call invokes the
nulled resolveReadyPromise and throws a TypeError. -/
theorem c10_counterexample :
    (finalizeSM initSM).bind finalizeSM =
      Except.error "TypeError: this.resolveReadyPromise is not a function" := by
  rfl

/-- C10 amended: finalize freezes the full sequence into originalSamples,
resolves the pending ready-wait (so waitForReady completes) and moves the
store to the finalized state; it is not idempotent — a second call throws a
TypeError because resolveReadyPromise was nulled by the first call. -/
theorem c10_finalize_freezes_once (st : SMState) (h : st.hasResolver = true) :
    finalizeSM st = Except.ok { st with
      originalSamples := some st.samples
      readyResolved := true
      hasResolver := false
      state := "finalized" } ∧
    waitForReadyCompletes { st with
      originalSamples := some st.samples
      readyResolved := true
      hasResolver := false
      state := "finalized" } = true ∧
    finalizeSM { st with
      originalSamples := some st.samples
      readyResolved := true
      hasResolver := false
      state := "finalized" } =
      Except.error "TypeError: this.resolveReadyPromise is not a function" := by
  refine ⟨?_, ?_, ?_⟩
  · rw [finalizeSM, if_pos h]
  · simp [waitForReadyCompletes]
  · simp [finalizeSM]

/-- Witness for C10 amended at the freshly constructed store. -/
theorem c10_finalize_freezes_once_witness :
    finalizeSM initSM = Except.ok { initSM with
      originalSamples := some initSM.samples
      readyResolved := true
      hasResolver := false
      state := "finalized" } ∧
    waitForReadyCompletes { initSM with
      originalSamples := some initSM.samples
      readyResolved := true
      hasResolver := false
      state := "finalized" } = true ∧
    finalizeSM { initSM with
      originalSamples := some initSM.samples
      readyResolved := true
      hasResolver := false
      state := "finalized" } =
      Except.error "TypeError: this.resolveReadyPromise is not a function" :=
  c10_finalize_freezes_once initSM rfl

-- ---------------------------------------------------------------------------
-- C2
-- ---------------------------------------------------------------------------

/-- C2 counterexample: decoded frames with microsecond timestamps
0, 67000, 33000, 100000 delivered in that arrival order (all inside the
[0 ms, 100 ms] range) are encoded in arrival order, not in timestamp order:
the promise chain serialises the processFrame calls but does not reorder
them. -/
theorem c2_counterexample :
    (encodeSequence ⟨0, 100⟩
        [⟨0, 33000⟩, ⟨67000, 33000⟩, ⟨33000, 33000⟩, ⟨100000, 33000⟩]).map
      DecodedFrame.timestamp = [0, 67000, 33000, 100000] ∧
    [(0 : ℤ), 67000, 33000, 100000] ≠ [0, 33000, 67000, 100000] := by
  decide

theorem filterMap_id_sublist {α : Type} (g : α → Option α)
    (hg : ∀ x y, g x = some y → y = x) :
    ∀ l : List α, (l.filterMap g).Sublist l := by
  intro l
  induction l with
  | nil => simp
  | cons a l ih =>
    rw [List.filterMap_cons]
    cases hga : g a with
    | none => exact ih.cons a
    | some b =>
      have hba : b = a := hg a b hga
      subst hba
      exact ih.cons₂ b

/-- C2 amended: the chained-promise handler runs each frame's
transform-and-encode to completion before the next frame's begins, in
arrival order, so the encode calls are the in-range arrivals as a
subsequence of the arrival order; encode order therefore equals timestamp
order exactly when the frames arrive in timestamp order (which the decoder
guarantees), not for arbitrary arrival orders. -/
theorem c2_chained_pipeline_order (r : PipelineRange) (arrivals : List DecodedFrame)
    (hsorted : arrivals.Pairwise (fun a b => a.timestamp ≤ b.timestamp)) :
    (encodeSequence r arrivals).Sublist arrivals ∧
    (encodeSequence r arrivals).Pairwise (fun a b => a.timestamp ≤ b.timestamp) := by
  have hsub : (encodeSequence r arrivals).Sublist arrivals := by
    apply filterMap_id_sublist
    intro x y hxy
    rw [processFrameResult] at hxy
    by_cases hc : frameTimeMs x < r.timeRangeStart ∨ frameTimeMs x > r.timeRangeEnd
    · rw [if_pos hc] at hxy
      exact absurd hxy (by simp)
    · rw [if_neg hc] at hxy
      exact (Option.some_inj.mp hxy).symm
  exact ⟨hsub, List.Pairwise.sublist hsub hsorted⟩

/-- Witness for C2 amended at a timestamp-ordered arrival sequence. -/
theorem c2_chained_pipeline_order_witness :
    (encodeSequence ⟨0, 100⟩ [⟨0, 33000⟩, ⟨33000, 33000⟩]).Sublist
      [⟨0, 33000⟩, ⟨33000, 33000⟩] ∧
    (encodeSequence ⟨0, 100⟩ [⟨0, 33000⟩, ⟨33000, 33000⟩]).Pairwise
      (fun a b => a.timestamp ≤ b.timestamp) :=
  c2_chained_pipeline_order ⟨0, 100⟩ [⟨0, 33000⟩, ⟨33000, 33000⟩] (by decide)

-- ---------------------------------------------------------------------------
-- C5
-- ---------------------------------------------------------------------------

theorem requestChunksGo_eq (samples : List Sample) :
    ∀ (count idx : ℕ),
      requestChunksGo samples idx count =
        (((samples.drop idx).take count).map encodedVideoChunkFromSample,
          idx + min count (samples.length - idx)) := by
  intro count
  induction count with
  | zero =>
    intro idx
    rw [requestChunksGo]
    simp
  | succ c ih =>
    intro idx
    rw [requestChunksGo]
    by_cases h : idx < samples.length
    · rw [if_pos h, ih (idx + 1)]
      rw [List.drop_eq_getElem_cons h, List.take_succ_cons, List.map_cons,
        List.getD_eq_getElem samples dSample h]
      simp only [Prod.mk.injEq, true_and]
      omega
    · rw [if_neg h]
      rw [List.drop_eq_nil_of_le (by omega : samples.length ≤ idx)]
      simp only [List.take_nil, List.map_nil, Prod.mk.injEq, true_and]
      omega

theorem requestChunks_eq (samples : List Sample) (idx n : ℕ) :
    requestChunks ⟨samples, idx⟩ n =
      (((samples.drop idx).take n).map encodedVideoChunkFromSample,
       decide (samples.length ≤ idx + min n (samples.length - idx)),
       ⟨samples, idx + min n (samples.length - idx)⟩) := by
  rw [requestChunks]
  rw [requestChunksGo_eq samples n idx]

theorem runRequests_drains (samples : List Sample) :
    ∀ (counts : List ℕ) (idx : ℕ), idx ≤ samples.length → counts ≠ [] →
      samples.length - idx ≤ counts.sum →
      runRequests ⟨samples, idx⟩ counts =
        ((samples.drop idx).map encodedVideoChunkFromSample, 1) := by
  intro counts
  induction counts with
  | nil =>
    intro idx _ hne _
    exact absurd rfl hne
  | cons n rest ih =>
    intro idx hidx hne hsum
    rw [runRequests]
    rw [List.sum_cons] at hsum
    by_cases hex : samples.length - idx ≤ n
    · have hmin : min n (samples.length - idx) = samples.length - idx := by omega
      rw [if_pos (by simp only [requestChunks_eq, hmin, decide_eq_true_eq]; omega)]
      simp only [requestChunks_eq, Prod.mk.injEq, and_true]
      rw [List.take_of_length_le (by rw [List.length_drop]; omega)]
    · have hmin : min n (samples.length - idx) = n := by omega
      have hrest : rest ≠ [] := by
        intro hnil
        rw [hnil] at hsum
        simp at hsum
        omega
      rw [if_neg (by simp only [requestChunks_eq, hmin, decide_eq_true_eq]; omega)]
      simp only [requestChunks_eq, hmin]
      rw [ih (idx + n) (by omega) hrest (by omega)]
      simp only [Prod.mk.injEq, and_true]
      rw [← List.map_append]
      congr 1
      rw [← List.drop_drop]
      exact List.take_append_drop n (samples.drop idx)

/-- C5: under the drain protocol — the caller issues pullChunks requests
until the first onExhausted signal, with a positive total budget covering
the active range — the chunks delivered across all calls are exactly the
active range's samples, converted in cursor order (hence exactly
selectByTime's count of them), and onExhausted is invoked exactly once, by
the call that delivers the final sample. -/
theorem c5_chunks_drain (st : CursorState) (counts : List ℕ)
    (hcursor : st.currentIndex = 0) (hne : counts ≠ [])
    (htotal : st.samples.length ≤ counts.sum) :
    (runRequests st counts).1 = st.samples.map encodedVideoChunkFromSample ∧
    (runRequests st counts).2 = 1 := by
  obtain ⟨samples, idx⟩ := st
  simp only at hcursor htotal
  subst hcursor
  rw [runRequests_drains samples counts 0 (by omega) hne (by omega)]
  simp

/-- Witness for C5: draining the 4-sample range with requests of 2 then 3
chunks delivers all four chunks and fires onExhausted exactly once. -/
theorem c5_chunks_drain_witness :
    (runRequests ⟨samples4, 0⟩ [2, 3]).1 = samples4.map encodedVideoChunkFromSample ∧
    (runRequests ⟨samples4, 0⟩ [2, 3]).2 = 1 :=
  c5_chunks_drain ⟨samples4, 0⟩ [2, 3] rfl (by decide) (by decide)

-- ---------------------------------------------------------------------------
-- C9 (amended theorem)
-- ---------------------------------------------------------------------------

theorem scale_eq_zero (x : ℤ) : ((x : ℚ) * (1 / 65536) = 0) ↔ x = 0 := by
  constructor
  · intro h
    have hx : (x : ℚ) = 0 := by
      rcases mul_eq_zero.mp h with h1 | h2
      · exact h1
      · norm_num at h2
    exact_mod_cast hx
  · intro h
    subst h
    norm_num

theorem scale_eq_one (x : ℤ) : ((x : ℚ) * (1 / 65536) = 1) ↔ x = 65536 := by
  constructor
  · intro h
    have hx : (x : ℚ) = 65536 := by
      field_simp at h
      exact_mod_cast h
    exact_mod_cast hx
  · intro h
    subst h
    norm_num

theorem scale_eq_neg_one (x : ℤ) : ((x : ℚ) * (1 / 65536) = -1) ↔ x = -65536 := by
  constructor
  · intro h
    have hx : (x : ℚ) = -65536 := by
      field_simp at h
      linarith
    exact_mod_cast hx
  · intro h
    subst h
    norm_num

/-- C9 amended: rotation is inferred strictly from the (a,b,c,d) =
(m[0],m[1],m[3],m[4]) sub-block of the 1/65536-scaled matrix — a=0,b=1,
c=-1,d=0 gives 90; a=0,b=-1,c=1,d=0 gives -90 (not 270: the source assigns
-90, an equivalent rotation modulo 360); a=-1,d=-1 gives 180; any other
sub-block (the identity included) gives 0. -/
theorem c9_rotation_from_matrix (m : List ℤ) :
    (m.getD 0 0 = 0 ∧ m.getD 1 0 = 65536 ∧ m.getD 3 0 = -65536 ∧ m.getD 4 0 = 0 →
      setInitialRotation m = 90) ∧
    (m.getD 0 0 = 0 ∧ m.getD 1 0 = -65536 ∧ m.getD 3 0 = 65536 ∧ m.getD 4 0 = 0 →
      setInitialRotation m = -90) ∧
    (m.getD 0 0 = -65536 ∧ m.getD 4 0 = -65536 → setInitialRotation m = 180) ∧
    (¬(m.getD 0 0 = 0 ∧ m.getD 1 0 = 65536 ∧ m.getD 3 0 = -65536 ∧ m.getD 4 0 = 0) →
     ¬(m.getD 0 0 = 0 ∧ m.getD 1 0 = -65536 ∧ m.getD 3 0 = 65536 ∧ m.getD 4 0 = 0) →
     ¬(m.getD 0 0 = -65536 ∧ m.getD 4 0 = -65536) →
      setInitialRotation m = 0) ∧
    (-90 : ℤ) % 360 = 270 := by
  rw [setInitialRotation]
  simp only [scale_eq_zero, scale_eq_one, scale_eq_neg_one]
  refine ⟨?_, ?_, ?_, ?_, by decide⟩
  · intro hcase
    rw [if_pos hcase]
  · intro hcase
    have h90 : ¬(m.getD 0 0 = 0 ∧ m.getD 1 0 = 65536 ∧
        m.getD 3 0 = -65536 ∧ m.getD 4 0 = 0) := by
      rintro ⟨y1, y2, y3, y4⟩
      omega
    rw [if_neg h90, if_pos hcase]
  · intro hcase
    have h90 : ¬(m.getD 0 0 = 0 ∧ m.getD 1 0 = 65536 ∧
        m.getD 3 0 = -65536 ∧ m.getD 4 0 = 0) := by
      rintro ⟨y1, y2, y3, y4⟩
      omega
    have h270 : ¬(m.getD 0 0 = 0 ∧ m.getD 1 0 = -65536 ∧
        m.getD 3 0 = 65536 ∧ m.getD 4 0 = 0) := by
      rintro ⟨y1, y2, y3, y4⟩
      omega
    rw [if_neg h90, if_neg h270, if_pos hcase]
  · intro h90 h270 h180
    rw [if_neg h90, if_neg h270, if_neg h180]

/-- Witness for C9 amended: the spec's 90-degree matrix maps to 90 and the
identity matrix maps to 0. -/
theorem c9_rotation_from_matrix_witness :
    setInitialRotation [0, 65536, 0, -65536, 0, 0, 0, 0, 65536] = 90 ∧
    setInitialRotation [65536, 0, 0, 0, 65536, 0, 0, 0, 65536] = 0 :=
  ⟨(c9_rotation_from_matrix [0, 65536, 0, -65536, 0, 0, 0, 0, 65536]).1 (by decide),
   (c9_rotation_from_matrix [65536, 0, 0, 0, 65536, 0, 0, 0, 65536]).2.2.2.1
     (by decide) (by decide) (by decide)⟩

-- ---------------------------------------------------------------------------
-- C6
-- ---------------------------------------------------------------------------

/-- The single-sample store on which any two preview percentages produce
the same handle. -/
def previewStore1 : List Sample := [⟨0, 1000, true, 33, 7⟩]

/-- A two-sample store (both samples sync points, times 0 ms and 33 ms) on
which percentages 0 and 100 produce distinct handles. -/
def previewStore2 : List Sample := [⟨0, 1000, true, 33, 1⟩, ⟨33, 1000, true, 33, 2⟩]

/-- C6 counterexample: on a single-sample store, preparePreview(0) and then
preparePreview(100) produce the same timestamp handle, so
executePreview(handle1) is not superseded — it proceeds and decodes the
prepared samples instead of returning null. -/
theorem c6_counterexample :
    executePreview
      (preparePreview previewStore1 (preparePreview previewStore1 initPreview 0).1 100).1
      (preparePreview previewStore1 initPreview 0).2 ≠ none := by
  decide

/-- C6 amended: when the second preparePreview produces a handle different
from the first one (the supersession the claim describes), executePreview
with the first handle returns null and decodes nothing; and in general
drawPreview invokes its callback only for a frame whose floored
millisecond timestamp equals the floored active handle, and a successful
draw clears the active handle to 0. -/
theorem c6_preview_supersession (store : List Sample) (st : PreviewState) (p1 p2 : ℚ)
    (hdiff : (preparePreview store (preparePreview store st p1).1 p2).2 ≠
      (preparePreview store st p1).2) :
    executePreview (preparePreview store (preparePreview store st p1).1 p2).1
      (preparePreview store st p1).2 = none ∧
    (∀ st2 : PreviewState, ∀ frameTimestamp : ℚ,
      (drawPreview st2 frameTimestamp).2 = true →
        ⌊st2.previewFrameTimeStamp⌋ = ⌊frameTimestamp / 1000⌋ ∧
        (drawPreview st2 frameTimestamp).1.previewFrameTimeStamp = 0) := by
  constructor
  · rw [executePreview]
    have hfix : (preparePreview store (preparePreview store st p1).1 p2).1.previewFrameTimeStamp =
        (preparePreview store (preparePreview store st p1).1 p2).2 := rfl
    rw [hfix, if_pos (Ne.symm hdiff)]
  · intro st2 frameTimestamp h
    by_cases hc : ⌊st2.previewFrameTimeStamp⌋ ≠ ⌊frameTimestamp / 1000⌋
    · rw [drawPreview, if_pos hc] at h
      exact absurd h (by simp)
    · refine ⟨not_ne_iff.mp hc, ?_⟩
      rw [drawPreview, if_neg hc]

/-- Witness for C6 amended: on the two-sample store the handles of
percentages 0 and 100 differ (0 ms vs 33 ms), so the superseded execute
returns null. -/
theorem c6_preview_supersession_witness :
    executePreview
      (preparePreview previewStore2 (preparePreview previewStore2 initPreview 0).1 100).1
      (preparePreview previewStore2 initPreview 0).2 = none :=
  (c6_preview_supersession previewStore2 initPreview 0 100 (by decide)).1

-- ---------------------------------------------------------------------------
-- C3
-- ---------------------------------------------------------------------------

/-- C3: the encode stage's blocking gate bounds the backpressure.  First
part: in every event-loop state reachable from init — any number of
concurrent encode() calls, 10,000 included, interleaved with native dequeue
events — the reported encodeQueueSize never exceeds the high-water-mark
kEncodeQueueSize = 23 by more than the one frame enqueued by the caller
that passed the gate.  Second part: an encode() call only returns (its task
reaching done) from a step in which the observed queue depth was at or
below the high-water-mark, i.e. while encodeQueueSize > kEncodeQueueSize
every caller is paused awaiting the single shared drain promise. -/
theorem c3_backpressure_bounded :
    (∀ s : EncState, EncReach s → s.queue ≤ kEncodeQueueSize + 1) ∧
    (∀ s s2 : EncState, ∀ i : ℕ, EncStep s s2 →
      s.tasks[i]? = some TaskPhase.start → s2.tasks[i]? = some TaskPhase.done →
      s.queue ≤ kEncodeQueueSize) := by
  constructor
  · intro s hreach
    induction hreach with
    | init => decide
    | step hprev hstep ih =>
      cases hstep with
      | spawn => exact ih
      | awaitShared i h hq hb => exact ih
      | createBlocking i h hq hb => exact ih
      | enqueue i h hq => exact Nat.add_le_add_right hq 1
      | dequeueResolve hq hb hlow => exact le_trans (Nat.sub_le _ _) ih
      | dequeueKeepBlocking hq hno => exact le_trans (Nat.sub_le _ _) ih
  · intro s s2 i hstep hstart hdone
    cases hstep with
    | spawn =>
      exfalso
      have hi : i < s.tasks.length := by
        by_contra hge
        rw [List.getElem?_eq_none (by omega)] at hstart
        exact absurd hstart (by simp)
      rw [List.getElem?_append, if_pos hi, hstart] at hdone
      exact absurd (Option.some_inj.mp hdone) (by decide)
    | awaitShared j h hq hb =>
      exfalso
      rw [List.getElem?_set] at hdone
      by_cases hji : j = i
      · rw [if_pos hji] at hdone
        by_cases hlen : j < s.tasks.length
        · rw [if_pos hlen] at hdone
          exact absurd (Option.some_inj.mp hdone) (by decide)
        · rw [if_neg hlen] at hdone
          exact absurd hdone (by simp)
      · rw [if_neg hji, hstart] at hdone
        exact absurd (Option.some_inj.mp hdone) (by decide)
    | createBlocking j h hq hb =>
      exfalso
      rw [List.getElem?_set] at hdone
      by_cases hji : j = i
      · rw [if_pos hji] at hdone
        by_cases hlen : j < s.tasks.length
        · rw [if_pos hlen] at hdone
          exact absurd (Option.some_inj.mp hdone) (by decide)
        · rw [if_neg hlen] at hdone
          exact absurd hdone (by simp)
      · rw [if_neg hji, hstart] at hdone
        exact absurd (Option.some_inj.mp hdone) (by decide)
    | enqueue j h hq => exact hq
    | dequeueResolve hq hb hlow =>
      exfalso
      rw [List.getElem?_map, hstart] at hdone
      simp [wakeTask] at hdone
    | dequeueKeepBlocking hq hno =>
      exfalso
      rw [hstart] at hdone
      exact absurd (Option.some_inj.mp hdone) (by decide)

/-- Witness for C3 at the reachable initial state: the bound holds there. -/
theorem c3_backpressure_bounded_witness :
    encInit.queue ≤ kEncodeQueueSize + 1 :=
  c3_backpressure_bounded.1 encInit EncReach.init
